import Mathlib

/-!
A shallow embedding of the const_json crate (src/lib.rs): the Json value
model, its key/index lookup, the typed unwrap accessors, the derived
structural equality and partial ordering, the Index sugar, and the Debug
formatter.  Rust panics are modelled as Except values carrying the three
failure conditions the crate distinguishes; Rust f64 payloads are modelled
by an exact representation of IEEE-754 binary64 values.
-/

namespace ConstJson

/-- Model of a Rust f64 (IEEE-754 binary64) value: NaN, a signed infinity
(the Bool is true for the positive one), or a finite value given by its
exact rational magnitude.  Signed zeros are identified, which is harmless
here because IEEE equality and ordering do not distinguish them and the
crate performs no arithmetic on floats. -/
inductive F64 where
  | nan : F64
  | inf (pos : Bool) : F64
  | finite (v : ℚ) : F64
deriving DecidableEq

/-- IEEE-754 equality on binary64 values, the comparison used by the
derived PartialEq on Json for Float payloads: NaN compares unequal to
everything (itself included); finite values compare by real value. -/
def F64.ieeeEq : F64 → F64 → Bool
  | .nan, _ => false
  | _, .nan => false
  | .inf a, .inf b => decide (a = b)
  | .finite a, .finite b => decide (a = b)
  | _, _ => false

/-- IEEE-754 partial comparison on binary64 values, the comparison used by
the derived PartialOrd on Json for Float payloads: any comparison with NaN
is undefined; negative infinity is below every finite value, positive
infinity above. -/
def F64.pcmp : F64 → F64 → Option Ordering
  | .nan, _ => none
  | _, .nan => none
  | .inf a, .inf b => some (if a = b then .eq else if a then .gt else .lt)
  | .inf a, .finite _ => some (if a then .gt else .lt)
  | .finite _, .inf b => some (if b then .lt else .gt)
  | .finite a, .finite b => some (compare a b)

/-- Bit length of a natural number, computed with an explicit fuel argument
(the number itself suffices) so that the definition is structurally
recursive. -/
def bitsAux : Nat → Nat → Nat
  | _, 0 => 0
  | 0, _ => 0
  | fuel + 1, m => bitsAux fuel (m / 2) + 1

/-- Bit length: bits 0 = 0 and for m > 0, 2 ^ (bits m - 1) ≤ m < 2 ^ bits m. -/
def bits (m : Nat) : Nat := bitsAux m m

/-- Rounds a natural magnitude to the nearest IEEE-754 binary64
representable value (53-bit significand), ties to even.  Magnitudes up to
2 ^ 53 are exactly representable and returned unchanged. -/
def roundMag (m : Nat) : Nat :=
  if m ≤ 2 ^ 53 then m
  else
    let s := bits m - 53
    let q := m / 2 ^ s
    let r := m % 2 ^ s
    let half := 2 ^ (s - 1)
    let q2 := if half < r then q + 1 else if r < half then q else q + q % 2
    q2 * 2 ^ s

/-- Models the Rust cast from i64 to f64 performed at src/lib.rs line 112:
conversion to the closest representable f64, rounding ties to even.  Every
i64 magnitude is far below the f64 overflow threshold, so the result is
always finite. -/
def i64ToF64 (n : Int) : F64 :=
  .finite (if n < 0 then -((roundMag n.natAbs : ℚ)) else (roundMag n.natAbs : ℚ))

/-- The UTF-8 encoding of a Unicode scalar value, as the list of its byte
values; Rust str and Lean String are both sequences of Unicode scalar
values, and Rust compares and stores them through this encoding. -/
def utf8Bytes (c : Char) : List Nat :=
  let v := c.toNat
  if v < 0x80 then [v]
  else if v < 0x800 then [0xC0 + v / 0x40, 0x80 + v % 0x40]
  else if v < 0x10000 then
    [0xE0 + v / 0x1000, 0x80 + v / 0x40 % 0x40, 0x80 + v % 0x40]
  else
    [0xF0 + v / 0x40000, 0x80 + v / 0x1000 % 0x40, 0x80 + v / 0x40 % 0x40,
      0x80 + v % 0x40]

/-- The UTF-8 byte sequence of a string, the view Rust's str methods
(len, as_bytes) expose. -/
def strBytes (s : String) : List Nat :=
  s.data.foldr (fun c acc => utf8Bytes c ++ acc) []

/-- The per-byte comparison loop of Json::string_eq (src/lib.rs lines
32-38): walks the two byte sequences in lockstep, false at the first
mismatching position.  It is only reached after the length check, so the
ragged fallback cases are never hit on the actual call. -/
def byteLoop : List Nat → List Nat → Bool
  | a :: l, b :: r => if a ≠ b then false else byteLoop l r
  | [], [] => true
  | _, _ => false

/-- The three failure conditions the crate's accessors distinguish, one per
distinct panic site: the "wrong variant" panics, the "key not found" panic
of get_val, and the out-of-range panic of the slice indexing in get_idx. -/
inductive JsonError where
  | WrongVariant : JsonError
  | KeyNotFound : JsonError
  | IndexOutOfRange : JsonError
deriving DecidableEq

/-- The Json enum of src/lib.rs lines 10-25.  Borrowed slices become Lean
lists, borrowed str becomes String, f64 becomes the exact F64 model. -/
inductive Json where
  | Null : Json
  | Bool (b : Bool) : Json
  | Float (f : F64) : Json
  | Int (n : Int) : Json
  | Str (s : String) : Json
  | Array (elems : List Json) : Json
  | Object (entries : List (String × Json)) : Json

/-- Json::string_eq (src/lib.rs lines 28-40): byte-exact string equality,
a length check followed by the per-byte loop. -/
def string_eq (l r : String) : Bool :=
  if (strBytes l).length ≠ (strBytes r).length then false
  else byteLoop (strBytes l) (strBytes r)

/-- The scanning loop of Json::get_val (src/lib.rs lines 52-60): walks the
entry slice from index 0, returns the value of the first entry whose key is
string_eq to the requested key, and panics with the key-not-found condition
when the loop runs off the end. -/
def lookupLoop : List (String × Json) → String → Except JsonError Json
  | [], _ => .error .KeyNotFound
  | (k, v) :: rest, key =>
    if string_eq k key then .ok v else lookupLoop rest key

/-- Json::get_val (src/lib.rs lines 49-64): on an Object, run the scanning
loop; on any other variant, panic with the wrong-variant condition. -/
def get_val (j : Json) (key : String) : Except JsonError Json :=
  match j with
  | .Object entries => lookupLoop entries key
  | _ => .error .WrongVariant

/-- Json::get_idx (src/lib.rs lines 73-78): on an Array, bounds-checked
slice indexing (the slice's own panic is the out-of-range condition); on
any other variant, panic with the wrong-variant condition. -/
def get_idx (j : Json) (i : Nat) : Except JsonError Json :=
  match j with
  | .Array elems =>
    match elems[i]? with
    | some v => .ok v
    | none => .error .IndexOutOfRange
  | _ => .error .WrongVariant

/-- Json::null (src/lib.rs lines 85-90). -/
def null (j : Json) : Except JsonError Unit :=
  match j with
  | .Null => .ok ()
  | _ => .error .WrongVariant

/-- Json::bool (src/lib.rs lines 97-102). -/
def bool (j : Json) : Except JsonError Bool :=
  match j with
  | .Bool b => .ok b
  | _ => .error .WrongVariant

/-- Json::float (src/lib.rs lines 109-115): unwraps a Float, additionally
accepting an Int and casting it to f64. -/
def float (j : Json) : Except JsonError F64 :=
  match j with
  | .Float f => .ok f
  | .Int n => .ok (i64ToF64 n)
  | _ => .error .WrongVariant

/-- Json::int (src/lib.rs lines 122-127): unwraps an Int and nothing else. -/
def int (j : Json) : Except JsonError Int :=
  match j with
  | .Int n => .ok n
  | _ => .error .WrongVariant

/-- Json::str (src/lib.rs lines 134-139). -/
def str (j : Json) : Except JsonError String :=
  match j with
  | .Str s => .ok s
  | _ => .error .WrongVariant

/-- The Index implementation over usize (src/lib.rs lines 210-216), which
delegates to get_idx. -/
def indexUsize (j : Json) (i : Nat) : Except JsonError Json :=
  get_idx j i

/-- The Index implementation over str (src/lib.rs lines 218-224), which
delegates to get_val. -/
def indexStr (j : Json) (key : String) : Except JsonError Json :=
  get_val j key

/-- Variant test helpers used only to phrase theorems. -/
def isArray : Json → Bool
  | .Array _ => true
  | _ => false

/-- Variant test: is the value an Object. -/
def isObject : Json → Bool
  | .Object _ => true
  | _ => false

/-- Variant test: is the value a Float. -/
def isFloat : Json → Bool
  | .Float _ => true
  | _ => false

/-- Variant test: is the value an Int. -/
def isInt : Json → Bool
  | .Int _ => true
  | _ => false

mutual

/-- The PartialEq implementation derived on Json (src/lib.rs line 9): equal
only when the variants coincide and the payloads compare equal; bool and
i64 payloads by value, f64 payloads by IEEE equality, str payloads byte for
byte, slice payloads element-wise in order after a length check. -/
def beqJson : Json → Json → Bool
  | .Null, .Null => true
  | .Bool a, .Bool b => decide (a = b)
  | .Float a, .Float b => F64.ieeeEq a b
  | .Int a, .Int b => decide (a = b)
  | .Str a, .Str b => string_eq a b
  | .Array a, .Array b => beqList a b
  | .Object a, .Object b => beqEntries a b
  | _, _ => false

/-- Derived slice equality for the Array payloads: same length and
element-wise equal, in order. -/
def beqList : List Json → List Json → Bool
  | [], [] => true
  | x :: xs, y :: ys => beqJson x y && beqList xs ys
  | _, _ => false

/-- Derived slice equality for the Object payloads: same length and
pair-wise equal entries, key first then value. -/
def beqEntries : List (String × Json) → List (String × Json) → Bool
  | [], [] => true
  | (k, v) :: xs, (k2, v2) :: ys =>
    string_eq k k2 && beqJson v v2 && beqEntries xs ys
  | _, _ => false

end

/-- The declaration position of each variant, the discriminant the derived
PartialOrd compares first (src/lib.rs lines 9-25): Null, Bool, Float, Int,
Str, Array, Object in that order. -/
def discr : Json → Nat
  | .Null => 0
  | .Bool _ => 1
  | .Float _ => 2
  | .Int _ => 3
  | .Str _ => 4
  | .Array _ => 5
  | .Object _ => 6

/-- Lexicographic comparison of byte sequences, the total ordering Rust
uses on str payloads. -/
def bytesCmp : List Nat → List Nat → Ordering
  | [], [] => .eq
  | [], _ :: _ => .lt
  | _ :: _, [] => .gt
  | a :: l, b :: r =>
    match compare a b with
    | .eq => bytesCmp l r
    | o => o

mutual

/-- The PartialOrd implementation derived on Json (src/lib.rs line 9):
values of different variants compare by discriminant (declaration
position), always defined; values of the same variant compare by payload,
which is undefined only when a NaN float payload is reached. -/
def pcmpJson : Json → Json → Option Ordering
  | .Null, .Null => some .eq
  | .Bool a, .Bool b => some (compare a b)
  | .Float a, .Float b => F64.pcmp a b
  | .Int a, .Int b => some (compare a b)
  | .Str a, .Str b => some (bytesCmp (strBytes a) (strBytes b))
  | .Array a, .Array b => pcmpList a b
  | .Object a, .Object b => pcmpEntries a b
  | a, b => some (compare (discr a) (discr b))

/-- Lexicographic partial comparison of the Array payload slices: the first
non-equal element comparison decides (an undefined element comparison makes
the whole comparison undefined); a slice is below its proper extensions. -/
def pcmpList : List Json → List Json → Option Ordering
  | [], [] => some .eq
  | [], _ :: _ => some .lt
  | _ :: _, [] => some .gt
  | x :: xs, y :: ys =>
    match pcmpJson x y with
    | some .eq => pcmpList xs ys
    | o => o

/-- Lexicographic partial comparison of the Object payload slices, entries
compared key first then value. -/
def pcmpEntries : List (String × Json) → List (String × Json) → Option Ordering
  | [], [] => some .eq
  | [], _ :: _ => some .lt
  | _ :: _, [] => some .gt
  | (k, v) :: xs, (k2, v2) :: ys =>
    match bytesCmp (strBytes k) (strBytes k2) with
    | .eq =>
      match pcmpJson v v2 with
      | some .eq => pcmpEntries xs ys
      | o => o
    | o => some o

end

mutual

/-- NaN-freedom of a value tree: no Float payload anywhere in it is NaN. -/
def noNaN : Json → Bool
  | .Float f => decide (f ≠ .nan)
  | .Array l => noNaNList l
  | .Object o => noNaNEntries o
  | _ => true

/-- NaN-freedom of every element of an Array payload. -/
def noNaNList : List Json → Bool
  | [] => true
  | x :: xs => noNaN x && noNaNList xs

/-- NaN-freedom of every value of an Object payload. -/
def noNaNEntries : List (String × Json) → Bool
  | [] => true
  | (_, v) :: xs => noNaN v && noNaNEntries xs

end


/-- Checked subtraction, modelling a Rust usize subtraction that aborts on
underflow: the formatter's len - 1 computation at src/lib.rs line 242 is of
this shape, and the claim is that the underflow branch is never taken. -/
def checkedSub (a b : Nat) : Option Nat :=
  if b ≤ a then some (a - b) else none

/-- Modelled from the spec: the quoted, escaped text literal Rust's Debug
for str produces for one character (the write of "{k:?}" and "{s:?}" at
src/lib.rs lines 233 and 241 delegates to it; it is standard-library code,
not part of this repository).  Quotes and backslashes are escaped, the
common control characters appear as their escape sequences, anything else
is kept verbatim. -/
def escapeChar (c : Char) : String :=
  if c = '"' then "\\\""
  else if c = '\\' then "\\\\"
  else if c = '\n' then "\\n"
  else if c = '\t' then "\\t"
  else if c = '\r' then "\\r"
  else String.singleton c

/-- Modelled from the spec: the quoted, escaped text literal Rust's Debug
for str produces, a double quote on each side of the escaped characters. -/
def strDebug (s : String) : String :=
  "\"" ++ String.join (s.data.map escapeChar) ++ "\""

/-- Modelled from the spec: the decimal textual form of a float (the write
of "{fl}" at src/lib.rs line 231 delegates to the platform conversion; the
spec fixes no exact digit count, only that the conversion is total). -/
def f64Display : F64 → String
  | .nan => "NaN"
  | .inf pos => if pos then "inf" else "-inf"
  | .finite v =>
    if v.den = 1 then toString v.num
    else toString v.num ++ "/" ++ toString v.den

/-- Comma-space separated concatenation, the separator placement of the
standard slice Debug ("[a, b]"). -/
def joinComma : List String → String
  | [] => ""
  | [s] => s
  | s :: rest => s ++ ", " ++ joinComma rest

mutual

/-- The Debug implementation for Json (src/lib.rs lines 226-253).  The
output is built as a string; the Option layer records the one conceivable
internal failure, the underflowing len - 1 of the Object branch, so that
infallibility is a statement and not an assumption.  The Array branch's
"{a:?}" is the standard slice Debug: elements in order, comma-space
separated, in square brackets. -/
def fmtVal : Json → Option String
  | .Null => some "null"
  | .Bool b => some (if b then "true" else "false")
  | .Float f => some (f64Display f)
  | .Int n => some (toString n)
  | .Str s => some (strDebug s)
  | .Array l =>
    match fmtList l with
    | some parts => some ("[" ++ joinComma parts ++ "]")
    | none => none
  | .Object o =>
    match fmtEntries o.length 0 o with
    | some body => some ("\x7b" ++ body ++ " \x7d")
    | none => none

/-- Renders each element of an Array payload. -/
def fmtList : List Json → Option (List String)
  | [] => some []
  | x :: xs =>
    match fmtVal x, fmtList xs with
    | some s, some rest => some (s :: rest)
    | _, _ => none

/-- The Object rendering loop (src/lib.rs lines 238-247): for each entry a
space, the quoted key, a colon-space, the value, then a comma whenever the
index is below len - 1 (len - 1 being the checked subtraction whose
underflow would be the formatter's own failure). -/
def fmtEntries : Nat → Nat → List (String × Json) → Option String
  | _, _, [] => some ""
  | len, idx, (k, v) :: rest =>
    match fmtVal v, checkedSub len 1 with
    | some vs, some lenM1 =>
      match fmtEntries len (idx + 1) rest with
      | some restS =>
        some (" " ++ strDebug k ++ ": " ++ vs ++
          (if idx < lenM1 then "," else "") ++ restS)
      | none => none
    | _, _ => none

end

/-! Helper lemmas about the string comparison and the lookup loop. -/

theorem byteLoop_eq_iff : ∀ l r : List Nat, l.length = r.length →
    (byteLoop l r = true ↔ l = r) := by
  intro l
  induction l with
  | nil =>
    intro r h
    cases r with
    | nil => simp [byteLoop]
    | cons b r => simp at h
  | cons a l ih =>
    intro r h
    cases r with
    | nil => simp at h
    | cons b r =>
      simp only [List.length_cons, Nat.add_right_cancel_iff] at h
      by_cases hab : a = b
      · subst hab
        simp [byteLoop, ih r h]
      · simp [byteLoop, hab]

theorem string_eq_iff (l r : String) :
    string_eq l r = true ↔ strBytes l = strBytes r := by
  unfold string_eq
  by_cases h : (strBytes l).length = (strBytes r).length
  · rw [if_neg (fun hne => hne h)]
    exact byteLoop_eq_iff _ _ h
  · rw [if_pos h]
    simp only [Bool.false_eq_true, false_iff]
    exact fun he => h (congrArg List.length he)

theorem string_eq_self (s : String) : string_eq s s = true :=
  (string_eq_iff s s).mpr rfl

theorem lookupLoop_first : ∀ (entries : List (String × Json)) (key : String)
    (i : Nat) (h : i < entries.length),
    string_eq (entries.get ⟨i, h⟩).1 key = true →
    (∀ p ∈ entries.take i, string_eq p.1 key = false) →
    lookupLoop entries key = .ok (entries.get ⟨i, h⟩).2 := by
  intro entries
  induction entries with
  | nil => intro key i h; exact absurd h (Nat.not_lt_zero i)
  | cons e rest ih =>
    intro key i h hmatch hskip
    obtain ⟨k, v⟩ := e
    cases i with
    | zero =>
      simp only [List.get] at hmatch ⊢
      simp [lookupLoop, hmatch]
    | succ i =>
      have hk : string_eq k key = false :=
        hskip (k, v) (by simp [List.take_succ_cons])
      simp only [lookupLoop, hk, Bool.false_eq_true, if_false]
      exact ih key i (Nat.lt_of_succ_lt_succ h) hmatch
        (fun p hp => hskip p (by simp [List.take_succ_cons, hp]))

theorem lookupLoop_notfound : ∀ (entries : List (String × Json)) (key : String),
    (∀ p ∈ entries, string_eq p.1 key = false) →
    lookupLoop entries key = .error .KeyNotFound := by
  intro entries key
  induction entries with
  | nil => intro _; rfl
  | cons e rest ih =>
    intro hall
    obtain ⟨k, v⟩ := e
    have hk : string_eq k key = false := hall (k, v) (List.mem_cons_self _ _)
    simp only [lookupLoop, hk, Bool.false_eq_true, if_false]
    exact ih (fun p hp => hall p (List.mem_cons_of_mem _ hp))

/-! Helper lemmas for induction over the nested Json tree. -/

theorem json_sizeOf_pos (j : Json) : 0 < sizeOf j := by
  cases j <;> simp

theorem sizeOf_mem_array {x : Json} {l : List Json} (hx : x ∈ l) :
    sizeOf x < sizeOf (Json.Array l) := by
  have h := List.sizeOf_lt_of_mem hx
  simp only [Json.Array.sizeOf_spec]
  omega

theorem sizeOf_mem_object {p : String × Json} {o : List (String × Json)}
    (hp : p ∈ o) : sizeOf p.2 < sizeOf (Json.Object o) := by
  have h := List.sizeOf_lt_of_mem hp
  have h2 : sizeOf p.2 < sizeOf p := by
    obtain ⟨k, v⟩ := p
    simp only [Prod.mk.sizeOf_spec]
    omega
  simp only [Json.Object.sizeOf_spec]
  omega

theorem noNaNList_mem {l : List Json} (h : noNaNList l = true) {x : Json}
    (hx : x ∈ l) : noNaN x = true := by
  induction l with
  | nil => cases hx
  | cons y ys ih =>
    simp only [noNaNList, Bool.and_eq_true] at h
    rcases List.mem_cons.mp hx with rfl | hx2
    · exact h.1
    · exact ih h.2 hx2

theorem noNaNEntries_mem {o : List (String × Json)} (h : noNaNEntries o = true)
    {p : String × Json} (hp : p ∈ o) : noNaN p.2 = true := by
  induction o with
  | nil => cases hp
  | cons q qs ih =>
    obtain ⟨k, v⟩ := q
    simp only [noNaNEntries, Bool.and_eq_true] at h
    rcases List.mem_cons.mp hp with rfl | hp2
    · exact h.1
    · exact ih h.2 hp2

/-! Reflexivity of the derived equality on NaN-free trees. -/

theorem beqList_self {l : List Json} (h : ∀ x ∈ l, beqJson x x = true) :
    beqList l l = true := by
  induction l with
  | nil => rfl
  | cons x xs ih =>
    simp only [beqList, Bool.and_eq_true]
    exact ⟨h x (List.mem_cons_self _ _),
      ih (fun y hy => h y (List.mem_cons_of_mem _ hy))⟩

theorem beqEntries_self {o : List (String × Json)}
    (h : ∀ p ∈ o, beqJson p.2 p.2 = true) : beqEntries o o = true := by
  induction o with
  | nil => rfl
  | cons p ps ih =>
    obtain ⟨k, v⟩ := p
    simp only [beqEntries, Bool.and_eq_true]
    exact ⟨⟨string_eq_self k, h (k, v) (List.mem_cons_self _ _)⟩,
      ih (fun q hq => h q (List.mem_cons_of_mem _ hq))⟩

theorem beq_refl_size : ∀ (N : Nat) (v : Json), sizeOf v ≤ N →
    noNaN v = true → beqJson v v = true := by
  intro N
  induction N with
  | zero =>
    intro v hv _
    exact absurd (Nat.lt_of_lt_of_le (json_sizeOf_pos v) hv) (Nat.lt_irrefl 0)
  | succ N ih =>
    intro v hv hn
    cases v with
    | Null => rfl
    | Bool b => simp [beqJson]
    | Float f =>
      cases f with
      | nan => simp [noNaN] at hn
      | inf pos => simp [beqJson, F64.ieeeEq]
      | finite q => simp [beqJson, F64.ieeeEq]
    | Int n => simp [beqJson]
    | Str s =>
      simp only [beqJson]
      exact string_eq_self s
    | Array l =>
      simp only [beqJson]
      apply beqList_self
      intro x hx
      have h1 := sizeOf_mem_array hx
      exact ih x (by omega) (noNaNList_mem (by simpa [noNaN] using hn) hx)
    | Object o =>
      simp only [beqJson]
      apply beqEntries_self
      intro p hp
      have h1 := sizeOf_mem_object hp
      exact ih p.2 (by omega) (noNaNEntries_mem (by simpa [noNaN] using hn) hp)

/-! Totality of the formatter. -/

theorem fmtList_of_mem {l : List Json}
    (h : ∀ x ∈ l, (fmtVal x).isSome = true) : (fmtList l).isSome = true := by
  induction l with
  | nil => rfl
  | cons x xs ih =>
    obtain ⟨s, hs⟩ := Option.isSome_iff_exists.mp (h x (List.mem_cons_self _ _))
    obtain ⟨rest, hrest⟩ := Option.isSome_iff_exists.mp
      (ih (fun y hy => h y (List.mem_cons_of_mem _ hy)))
    simp [fmtList, hs, hrest]

theorem fmtEntries_of_mem {o : List (String × Json)} {len : Nat}
    (hlen : 1 ≤ len) (h : ∀ p ∈ o, (fmtVal p.2).isSome = true) :
    ∀ idx, (fmtEntries len idx o).isSome = true := by
  induction o with
  | nil => intro idx; rfl
  | cons p ps ih =>
    intro idx
    obtain ⟨k, v⟩ := p
    obtain ⟨vs, hvs⟩ := Option.isSome_iff_exists.mp (h (k, v) (List.mem_cons_self _ _))
    obtain ⟨restS, hrest⟩ := Option.isSome_iff_exists.mp
      (ih (fun q hq => h q (List.mem_cons_of_mem _ hq)) (idx + 1))
    have hsub : checkedSub len 1 = some (len - 1) := by
      simp [checkedSub, hlen]
    simp [fmtEntries, hvs, hrest, hsub]

theorem fmtVal_total_size : ∀ (N : Nat) (v : Json), sizeOf v ≤ N →
    (fmtVal v).isSome = true := by
  intro N
  induction N with
  | zero =>
    intro v hv
    exact absurd (Nat.lt_of_lt_of_le (json_sizeOf_pos v) hv) (Nat.lt_irrefl 0)
  | succ N ih =>
    intro v hv
    cases v with
    | Null => rfl
    | Bool b => rfl
    | Float f => rfl
    | Int n => rfl
    | Str s => rfl
    | Array l =>
      have hels : (fmtList l).isSome = true := by
        apply fmtList_of_mem
        intro x hx
        have h1 := sizeOf_mem_array hx
        exact ih x (by omega)
      obtain ⟨parts, hparts⟩ := Option.isSome_iff_exists.mp hels
      simp [fmtVal, hparts]
    | Object o =>
      cases o with
      | nil => rfl
      | cons p ps =>
        have hbody : (fmtEntries (p :: ps).length 0 (p :: ps)).isSome = true := by
          apply fmtEntries_of_mem
          · simp
          · intro q hq
            have h1 := sizeOf_mem_object hq
            exact ih q.2 (by omega)
        obtain ⟨body, hb⟩ := Option.isSome_iff_exists.mp hbody
        simp only [List.length_cons] at hb
        simp [fmtVal, hb]

/-! Element-wise characterization of the derived slice equality. -/

theorem beqList_iff : ∀ xs ys : List Json,
    beqList xs ys = true ↔ List.Forall₂ (fun a b => beqJson a b = true) xs ys := by
  intro xs
  induction xs with
  | nil =>
    intro ys
    cases ys <;> simp [beqList]
  | cons x xs ih =>
    intro ys
    cases ys with
    | nil => simp [beqList]
    | cons y ys => simp [beqList, Bool.and_eq_true, ih, List.forall₂_cons]

theorem beqEntries_iff : ∀ xs ys : List (String × Json),
    beqEntries xs ys = true ↔
      List.Forall₂
        (fun p q => strBytes p.1 = strBytes q.1 ∧ beqJson p.2 q.2 = true) xs ys := by
  intro xs
  induction xs with
  | nil =>
    intro ys
    cases ys <;> simp [beqEntries]
  | cons p xs ih =>
    intro ys
    obtain ⟨k, v⟩ := p
    cases ys with
    | nil => simp [beqEntries]
    | cons q ys =>
      obtain ⟨k2, v2⟩ := q
      simp [beqEntries, Bool.and_eq_true, ih, List.forall₂_cons, string_eq_iff,
        and_assoc]

/-! The Int to f64 cast is exact on small magnitudes. -/

theorem castMag (n : Int) :
    (if n < 0 then -((n.natAbs : ℚ)) else ((n.natAbs : ℚ))) = (n : ℚ) := by
  rw [Int.cast_natAbs, Int.cast_abs]
  by_cases hn : n < 0
  · rw [if_pos hn, abs_of_neg (show (n : ℚ) < 0 from by exact_mod_cast hn),
      neg_neg]
  · rw [if_neg hn,
      abs_of_nonneg (show (0 : ℚ) ≤ n from by exact_mod_cast Int.not_lt.mp hn)]

theorem i64ToF64_exact {n : Int} (h : n.natAbs ≤ 2 ^ 53) :
    i64ToF64 n = .finite (n : ℚ) := by
  unfold i64ToF64
  rw [show roundMag n.natAbs = n.natAbs from by unfold roundMag; rw [if_pos h]]
  rw [castMag]

/-! The claims. -/

/-- Claim C1: for every Object and key, get_val scans the entry sequence in
order from index 0, compares keys by byte-exact equality (string_eq holds
exactly when the byte sequences coincide, which the length check plus the
per-byte loop decide), and returns the value of the first matching entry;
with duplicate keys the lowest-index entry wins. -/
theorem c1_get_val_first_match :
    (∀ l r : String, string_eq l r = true ↔ strBytes l = strBytes r) ∧
    ∀ (entries : List (String × Json)) (key : String) (i : Nat)
      (h : i < entries.length),
      string_eq (entries.get ⟨i, h⟩).1 key = true →
      (∀ p ∈ entries.take i, string_eq p.1 key = false) →
      get_val (.Object entries) key = .ok (entries.get ⟨i, h⟩).2 := by
  refine ⟨string_eq_iff, ?_⟩
  intro entries key i h hm hs
  exact lookupLoop_first entries key i h hm hs

/-- Witness for C1: on an object with a duplicated key "a", lookup returns
the value of the first occurrence. -/
theorem c1_get_val_first_match_witness :
    get_val (.Object [("a", .Int 1), ("b", .Int 2), ("a", .Int 3)]) "a" =
      .ok (.Int 1) :=
  c1_get_val_first_match.2 [("a", .Int 1), ("b", .Int 2), ("a", .Int 3)] "a" 0
    (by decide) (by decide) (by decide)

/-- Claim C2: get_idx on an Array returns the i-th element unchanged when
i < length, fails with the index-out-of-range condition when i ≥ length,
and fails with the wrong-variant condition on any non-Array receiver. -/
theorem c2_get_idx_spec :
    ∀ (l : List Json) (i : Nat) (j : Json),
      (∀ h : i < l.length, get_idx (.Array l) i = .ok (l.get ⟨i, h⟩)) ∧
      (l.length ≤ i → get_idx (.Array l) i = .error .IndexOutOfRange) ∧
      (isArray j = false → get_idx j i = .error .WrongVariant) := by
  intro l i j
  refine ⟨fun h => ?_, fun h => ?_, fun h => ?_⟩
  · simp [get_idx, List.getElem?_eq_getElem h]
  · simp [get_idx, List.getElem?_eq_none h]
  · cases j <;> simp_all [get_idx, isArray]

/-- Witness for C2: in-bounds access, out-of-range access, and a non-Array
receiver, each at a concrete input. -/
theorem c2_get_idx_spec_witness :
    get_idx (.Array [.Null, .Int 7]) 1 = .ok (.Int 7) ∧
    get_idx (.Array [.Null, .Int 7]) 5 = .error .IndexOutOfRange ∧
    get_idx (.Str "s") 0 = .error .WrongVariant :=
  ⟨(c2_get_idx_spec [.Null, .Int 7] 1 (.Str "s")).1 (by decide),
    (c2_get_idx_spec [.Null, .Int 7] 5 (.Str "s")).2.1 (by decide),
    (c2_get_idx_spec [.Null, .Int 7] 0 (.Str "s")).2.2 rfl⟩

/-- Claim C3: get_val on an Object without the key fails with the
key-not-found condition; get_val and get_idx on a wrong-variant receiver
fail with the wrong-variant condition; the three failure conditions are
pairwise distinct; and an ok result is only ever produced on the matching
variant, never a silently returned default. -/
theorem c3_failure_conditions :
    ∀ (entries : List (String × Json)) (key : String) (j : Json) (i : Nat),
      ((∀ p ∈ entries, string_eq p.1 key = false) →
        get_val (.Object entries) key = .error .KeyNotFound) ∧
      (isObject j = false → get_val j key = .error .WrongVariant) ∧
      (isArray j = false → get_idx j i = .error .WrongVariant) ∧
      (JsonError.WrongVariant ≠ JsonError.KeyNotFound ∧
        JsonError.WrongVariant ≠ JsonError.IndexOutOfRange ∧
        JsonError.KeyNotFound ≠ JsonError.IndexOutOfRange) ∧
      (∀ v : Json, get_val j key = .ok v → isObject j = true) ∧
      (∀ v : Json, get_idx j i = .ok v → isArray j = true) := by
  intro entries key j i
  refine ⟨fun h => lookupLoop_notfound entries key h, fun h => ?_, fun h => ?_,
    by decide, fun v hv => ?_, fun v hv => ?_⟩
  · cases j <;> simp_all [get_val, isObject]
  · cases j <;> simp_all [get_idx, isArray]
  · cases j <;> simp_all [get_val, isObject]
  · cases j with
    | Array l =>
      rfl
    | Null => simp_all [get_idx]
    | Bool b => simp_all [get_idx]
    | Float f => simp_all [get_idx]
    | Int n => simp_all [get_idx]
    | Str s => simp_all [get_idx]
    | Object o => simp_all [get_idx]

/-- Witness for C3: a missing key, the spec's negative scenario of get_val
on an Array, and get_idx on an Object, at concrete inputs. -/
theorem c3_failure_conditions_witness :
    get_val (.Object [("a", .Int 1)]) "zz" = .error .KeyNotFound ∧
    get_val (.Array [.Int 1]) "zz" = .error .WrongVariant ∧
    get_idx (.Object [("a", .Int 1)]) 0 = .error .WrongVariant :=
  ⟨(c3_failure_conditions [("a", .Int 1)] "zz" (.Array [.Int 1]) 0).1 (by decide),
    (c3_failure_conditions [("a", .Int 1)] "zz" (.Array [.Int 1]) 0).2.1 rfl,
    (c3_failure_conditions [("a", .Int 1)] "zz" (.Object [("a", .Int 1)]) 0).2.2.1 rfl⟩

/-- Counterexample to C4 as stated: the float accessor applied to
Int(2 ^ 53 + 1) does not yield the exact floating value of its argument;
the cast rounds to the nearest representable double, 2 ^ 53. -/
theorem c4_cex :
    float (Json.Int 9007199254740993) = .ok (i64ToF64 9007199254740993) ∧
    i64ToF64 9007199254740993 = .finite 9007199254740992 ∧
    (9007199254740992 : ℚ) ≠ ((9007199254740993 : Int) : ℚ) :=
  ⟨rfl, by decide, by decide⟩

/-- Claim C4 as amended: float applied to Int(n) yields the f64 nearest to
n (ties to even), which is the exact value of n whenever the magnitude of n
is at most 2 ^ 53; applied to Float(f) it yields f unchanged; applied to
any other variant it fails with the wrong-variant condition; the coercion
is one-directional, int applied to Float fails with the wrong-variant
condition. -/
theorem c4_float_coercion :
    ∀ (n : Int) (f : F64) (j : Json),
      (float (.Int n) = .ok (i64ToF64 n)) ∧
      (n.natAbs ≤ 2 ^ 53 → float (.Int n) = .ok (.finite (n : ℚ))) ∧
      (float (.Float f) = .ok f) ∧
      (isFloat j = false → isInt j = false → float j = .error .WrongVariant) ∧
      (int (.Float f) = .error .WrongVariant) ∧
      (int (.Int n) = .ok n) := by
  intro n f j
  refine ⟨rfl, fun h => ?_, rfl, fun h1 h2 => ?_, rfl, rfl⟩
  · show Except.ok (i64ToF64 n) = _
    rw [i64ToF64_exact h]
  · cases j <;> simp_all [float, isFloat, isInt]

/-- Witness for C4 at concrete inputs: exact coercion of a small Int, and
the wrong-variant failure on a Str receiver. -/
theorem c4_float_coercion_witness :
    float (.Int 5) = .ok (.finite ((5 : Int) : ℚ)) ∧
    float (.Str "s") = .error .WrongVariant :=
  ⟨(c4_float_coercion 5 .nan (.Str "s")).2.1 (by decide),
    (c4_float_coercion 5 .nan (.Str "s")).2.2.2.1 rfl rfl⟩

/-- Counterexample to C5 as stated: the derived equality is not reflexive
at a NaN float payload, exactly as IEEE-754 prescribes. -/
theorem c5_cex : beqJson (.Float .nan) (.Float .nan) = false := rfl

/-- Claim C5 as amended: every value none of whose float payloads is NaN is
equal to itself under the derived structural equality. -/
theorem c5_eq_refl : ∀ v : Json, noNaN v = true → beqJson v v = true :=
  fun v h => beq_refl_size (sizeOf v) v (Nat.le_refl _) h

/-- Witness for C5 at a concrete NaN-free tree. -/
theorem c5_eq_refl_witness :
    beqJson (.Array [.Int 1, .Str "hi", .Float (.finite 2)])
      (.Array [.Int 1, .Str "hi", .Float (.finite 2)]) = true :=
  c5_eq_refl (.Array [.Int 1, .Str "hi", .Float (.finite 2)]) (by decide)

/-- Claim C6: two values compare equal only when their variants coincide,
and on each variant the derived equality is exactly payload equality: bool
and integer payloads by value, float payloads by IEEE equality, text byte
for byte, and slices element-wise in order; an Int and a Float are never
equal, whatever the magnitudes. -/
theorem c6_structural_eq :
    (∀ a b : Json, beqJson a b = true → discr a = discr b) ∧
    (∀ (n : Int) (f : F64), beqJson (.Int n) (.Float f) = false ∧
      beqJson (.Float f) (.Int n) = false) ∧
    (∀ x y : Bool, beqJson (.Bool x) (.Bool y) = true ↔ x = y) ∧
    (∀ x y : Int, beqJson (.Int x) (.Int y) = true ↔ x = y) ∧
    (∀ x y : F64, beqJson (.Float x) (.Float y) = F64.ieeeEq x y) ∧
    (∀ s t : String, beqJson (.Str s) (.Str t) = true ↔
      strBytes s = strBytes t) ∧
    (∀ xs ys : List Json, beqJson (.Array xs) (.Array ys) = true ↔
      List.Forall₂ (fun a b => beqJson a b = true) xs ys) ∧
    (∀ xs ys : List (String × Json),
      beqJson (.Object xs) (.Object ys) = true ↔
        List.Forall₂
          (fun p q => strBytes p.1 = strBytes q.1 ∧ beqJson p.2 q.2 = true)
          xs ys) := by
  refine ⟨?_, fun n f => ⟨rfl, rfl⟩, fun x y => decide_eq_true_iff,
    fun x y => decide_eq_true_iff, fun x y => rfl,
    fun s t => string_eq_iff s t, fun xs ys => beqList_iff xs ys,
    fun xs ys => beqEntries_iff xs ys⟩
  intro a b h
  cases a <;> cases b <;> first | rfl | exact Bool.noConfusion h

/-- Witness for C6: byte-identical strings compare equal, and an equality
that holds forces equal discriminants, at concrete inputs. -/
theorem c6_structural_eq_witness :
    beqJson (.Str "ab") (.Str "ab") = true ∧
    discr (.Int 5) = discr (.Int 5) :=
  ⟨(c6_structural_eq.2.2.2.2.2.1 "ab" "ab").mpr rfl,
    c6_structural_eq.1 (.Int 5) (.Int 5) rfl⟩

/-- Claim C7: the two Index implementations are the same functions as
get_val and get_idx (in the source they delegate), so the bracket sugar
returns the same results and fails under exactly the same conditions. -/
theorem c7_index_sugar :
    ∀ (j : Json) (i : Nat) (key : String),
      indexUsize j i = get_idx j i ∧ indexStr j key = get_val j key :=
  fun _ _ _ => ⟨rfl, rfl⟩

/-- Claim C8: the formatter renders Null as the token null, Bool as its
truth literal, Str as a quoted escaped text literal, Array as a bracketed
comma-separated rendering of the elements in order, and Object as quoted
"key": value pairs in insertion order, comma-separated, with a single
leading and trailing space inside the braces; the spec's concrete scenario
renders accordingly. -/
theorem c8_formatter_rendering :
    ∀ (b : Bool) (s k1 k2 s1 s2 : String) (v1 v2 : Json),
      (fmtVal .Null = some "null") ∧
      (fmtVal (.Bool b) = some (if b then "true" else "false")) ∧
      (fmtVal (.Str s) =
        some ("\"" ++ String.join (s.data.map escapeChar) ++ "\"")) ∧
      (fmtVal v1 = some s1 → fmtVal v2 = some s2 →
        fmtVal (.Array [v1, v2]) = some ("[" ++ s1 ++ ", " ++ s2 ++ "]")) ∧
      (fmtVal v1 = some s1 → fmtVal v2 = some s2 →
        fmtVal (.Object [(k1, v1), (k2, v2)]) =
          some ("\x7b " ++ strDebug k1 ++ ": " ++ s1 ++ ", " ++
            strDebug k2 ++ ": " ++ s2 ++ " \x7d")) ∧
      (fmtVal (.Object [("x", .Bool true), ("y", .Str "hi")]) =
        some "\x7b \"x\": true, \"y\": \"hi\" \x7d") := by
  intro b s k1 k2 s1 s2 v1 v2
  refine ⟨rfl, rfl, rfl, fun h1 h2 => ?_, fun h1 h2 => ?_, rfl⟩
  · simp [fmtVal, fmtList, h1, h2, joinComma, String.append_assoc]
  · simp [fmtVal, fmtEntries, h1, h2, checkedSub, String.append_assoc,
      String.append_empty]
    rfl

/-- Witness for C8: the Array and Object composite clauses at concrete
elements. -/
theorem c8_formatter_rendering_witness :
    fmtVal (.Array [.Int 1, .Null]) = some "[1, null]" ∧
    fmtVal (.Object [("a", .Int 1), ("b", .Null)]) =
      some "\x7b \"a\": 1, \"b\": null \x7d" :=
  ⟨(c8_formatter_rendering true "" "a" "b" "1" "null" (.Int 1) .Null).2.2.2.1
      rfl rfl,
    (c8_formatter_rendering true "" "a" "b" "1" "null" (.Int 1) .Null).2.2.2.2.1
      rfl rfl⟩

/-- Claim C9: the formatter is total on every value, the empty Object and
empty Array included; in particular the object loop's length-minus-one
computation, modelled as a checked subtraction, never underflows. -/
theorem c9_formatter_total : ∀ j : Json, (fmtVal j).isSome = true :=
  fun j => fmtVal_total_size (sizeOf j) j (Nat.le_refl _)

/-- Claim C10: values of different variants always compare defined (never
incomparable), ordered by variant declaration position Null, Bool, Float,
Int, Str, Array, Object; in particular Bool(true) is below Int(5), and each
variant is below the next whatever the payloads, NaN included. -/
theorem c10_cross_variant_order :
    ∀ (a b : Json) (x : Bool) (f : F64) (n : Int) (s : String)
      (l : List Json) (o : List (String × Json)),
      (discr a ≠ discr b →
        pcmpJson a b = some (compare (discr a) (discr b))) ∧
      (pcmpJson .Null (.Bool x) = some .lt ∧
        pcmpJson (.Bool x) (.Float f) = some .lt ∧
        pcmpJson (.Float f) (.Int n) = some .lt ∧
        pcmpJson (.Int n) (.Str s) = some .lt ∧
        pcmpJson (.Str s) (.Array l) = some .lt ∧
        pcmpJson (.Array l) (.Object o) = some .lt) ∧
      (pcmpJson (.Bool true) (.Int 5) = some .lt) := by
  intro a b x f n s l o
  refine ⟨fun h => ?_, ⟨rfl, rfl, rfl, rfl, rfl, rfl⟩, rfl⟩
  cases a <;> cases b <;> first | (exact absurd rfl h) | rfl

/-- Witness for C10: a concrete cross-variant comparison through the main
clause. -/
theorem c10_cross_variant_order_witness :
    pcmpJson (.Str "a") (.Int 0) = some .gt :=
  (c10_cross_variant_order (.Str "a") (.Int 0) true .nan 0 "" [] []).1
    (by decide)

end ConstJson
